import Mathlib

/-!
# WebChatty backend: verification of the live-update core and API routes

Shallow embedding of the WebChatty backend fragments:
* `QueryParser` (src/backend/api/QueryParser.ts): `getBoolean`, `getString`,
  `getInteger`, `getIntegerList` over an abstract request query.
* The `/v2/waitForEvent` route (routes/v2/waitForEvent.ts).
* The `/v2/getPost` route (routes/v2/getPost.ts).
* The `/v2/clientData/setCategoryFilters` route.
* `MemoryAccountConnector.tryLogin` / `userExists`.
* The event log, event dispatcher and nuked-subtree pruning, whose
  implementation files are not part of the examined fragment; these are
  modelled from the specification (see the doc comments marked
  `Modelled from the spec`).

JavaScript strings are modelled by `String`, JavaScript numbers arising from
parsing by `Nat` (all parsed values here are non-negative; `NaN` is modelled
by `Option.none` where it can arise), and thrown `ApiError`s by `Except`.
-/

namespace WebChatty

/-- An API error thrown by the routing layer (`spec.apiError(code, message)`). -/
structure ApiError where
  code : String
  message : String
deriving DecidableEq, Repr

/-- `spec.apiError("ERR_ARGUMENT", msg)`. -/
def argError (message : String) : ApiError :=
  { code := "ERR_ARGUMENT", message := message }

/-- A request's query/body parameters: a partial map from parameter name to
raw string value (`req.query[name]` / `req.body[name]`). -/
def Query : Type := String → Option String

/-- `QueryParser.has(name)`: the parameter is present and its string form is
not empty. -/
def queryHas (q : Query) (name : String) : Bool :=
  match q name with
  | some s => s ≠ ""
  | none => false

/-- `QueryParser.get(name)`: returns the raw value, throwing `ERR_ARGUMENT`
when the parameter is absent. -/
def queryGet (q : Query) (name : String) : Except ApiError String :=
  match q name with
  | some s =>
      if s = "" then .error (argError ("Missing argument " ++ name))
      else .ok s
  | none => .error (argError ("Missing argument " ++ name))

/-- The test `integerRegEx.test(str)` for `integerRegEx = /^[0-9]+$/`:
a non-empty string of decimal digits. -/
def integerRegExTest (s : String) : Bool :=
  s.length != 0 && s.toList.all Char.isDigit

/-- Split a character list at commas (accumulator holds the current segment
reversed). -/
def splitCommaGo : List Char → List Char → List String
  | [], acc => [String.mk acc.reverse]
  | c :: rest, acc =>
      if c = ',' then String.mk acc.reverse :: splitCommaGo rest []
      else splitCommaGo rest (c :: acc)

/-- JavaScript `s.split(",")`: the empty string yields `[""]`, and empty
segments between consecutive commas are kept. -/
def jsSplitComma (s : String) : List String :=
  splitCommaGo s.toList []

/-- Value of a decimal digit string (what `parseFloat` returns on a string
that passed `integerRegEx`). -/
def decimalValue (s : String) : Nat :=
  s.toList.foldl (fun acc c => acc * 10 + (c.toNat - 48)) 0

/-- `QueryParser.getString(name, minLength, maxLength)`. -/
def getString (q : Query) (name : String) (minLength maxLength : Nat) :
    Except ApiError String :=
  match queryGet q name with
  | .error e => .error e
  | .ok value =>
      if value.length < minLength then
        .error (argError ("The value for parameter " ++ name ++ " is too short."))
      else if maxLength < value.length then
        .error (argError ("The value for parameter " ++ name ++ " is too long."))
      else .ok value

/-- `QueryParser.getInteger(name, min, max)`: reads a 1..10 character string,
requires it to match `^[0-9]+$`, parses it and range-checks the result.
The defaults `min = 0`, `max = 2147483647` are supplied at call sites. -/
def getInteger (q : Query) (name : String) (min max : Nat) :
    Except ApiError Nat :=
  match getString q name 1 10 with
  | .error e => .error e
  | .ok str =>
      if integerRegExTest str = false then
        .error (argError ("The value for parameter " ++ name ++ " must be an integer."))
      else
        let num := decimalValue str
        if num < min then
          .error (argError ("The value for parameter " ++ name ++ " is below the minimum."))
        else if max < num then
          .error (argError ("The value for parameter " ++ name ++ " is above the maximum."))
        else .ok num

/-- `QueryParser.getBoolean(name)`: only the exact strings `true` and
`false` are accepted. -/
def getBoolean (q : Query) (name : String) : Except ApiError Bool :=
  match queryGet q name with
  | .error e => .error e
  | .ok value =>
      if value = "true" then .ok true
      else if value = "false" then .ok false
      else .error (argError ("The value for parameter " ++ name ++ " must be true or false."))

/-- The numeric value of a character as a digit under a given radix, or
`none` when the character is not a valid digit in that radix
(JavaScript `parseInt` digit handling). -/
def digitInRadix (c : Char) (r : Nat) : Option Nat :=
  let v : Option Nat :=
    if c.isDigit then some (c.toNat - 48)
    else if 'a' ≤ c && c ≤ 'z' then some (c.toNat - 87)
    else if 'A' ≤ c && c ≤ 'Z' then some (c.toNat - 55)
    else none
  match v with
  | some d => if d < r then some d else none
  | none => none

/-- Accumulate the longest valid-digit prefix, as `parseInt` does. -/
def jsParseIntGo (r : Nat) : List Char → Nat → Nat
  | [], acc => acc
  | c :: rest, acc =>
      match digitInRadix c r with
      | some d => jsParseIntGo r rest (acc * r + d)
      | none => acc

/-- JavaScript `parseInt(s, radix)` restricted to the inputs reachable here
(strings already matching `^[0-9]+$`, so no sign, whitespace or `0x` prefix):
radix `0` means decimal; a radix outside `2..36` yields `NaN` (modelled as
`none`); otherwise the longest valid-digit prefix is parsed, `NaN` if the
first character is not a valid digit in the radix. -/
def jsParseInt (s : String) (radix : Nat) : Option Nat :=
  let r := if radix = 0 then 10 else radix
  if r < 2 || 36 < r then none
  else
    match s.toList with
    | [] => none
    | c :: _ =>
        match digitInRadix c r with
        | none => none
        | some _ => some (jsParseIntGo r s.toList 0)

/-- `x >= min` in JavaScript with `x` possibly `NaN`: `NaN >= min` is false. -/
def jsGe (o : Option Nat) (min : Nat) : Bool :=
  match o with
  | some v => min ≤ v
  | none => false

/-- `x <= max` in JavaScript with `x` possibly `NaN`: `NaN <= max` is false. -/
def jsLe (o : Option Nat) (max : Nat) : Bool :=
  match o with
  | some v => v ≤ max
  | none => false

/-- `QueryParser.getIntegerList(name, minListCount, maxListCount, min, max)`.
The source computes `lodash.map(list, parseInt)`; lodash invokes the iteratee
with `(value, index, collection)`, so each element is parsed with its own
list index as the radix. -/
def getIntegerList (q : Query) (name : String)
    (minListCount maxListCount min max : Nat) : Except ApiError (List Nat) :=
  match queryGet q name with
  | .error e => .error e
  | .ok value =>
      let list := jsSplitComma value
      if list.length < minListCount then
        .error (argError ("The comma-separated list " ++ name ++ " has too few items."))
      else if maxListCount < list.length then
        .error (argError ("The comma-separated list " ++ name ++ " has too many items."))
      else if (list.all integerRegExTest) = false then
        .error (argError ("Each item in the comma-separated list " ++ name ++ " must be an integer."))
      else
        let numbers := list.mapIdx (fun i x => jsParseInt x i)
        if (numbers.all (fun o => jsGe o min)) = false then
          .error (argError ("Each item in the comma-separated list " ++ name ++ " is below the minimum."))
        else if (numbers.all (fun o => jsLe o max)) = false then
          .error (argError ("Each item in the comma-separated list " ++ name ++ " is above the maximum."))
        else .ok (numbers.filterMap id)

/-- A domain event (§3): identifier, kind tag and opaque payload. The id
field is named `eventId` as in the route code (`events[...].eventId`). -/
structure Event where
  eventId : Nat
  kind : String
  payload : String
deriving DecidableEq, Repr

/-- Modelled from the spec: the Event Log (§3, §4.1), whose implementation
file is not part of the examined fragment. An ordered sequence of events
bounded to a fixed maximum length `capacity`, plus the high-water mark
`lastId` (0 when nothing was ever appended). -/
structure EventLog where
  capacity : Nat
  events : List Event
  lastId : Nat
deriving DecidableEq, Repr

/-- A fresh event log of the given capacity. -/
def emptyLog (capacity : Nat) : EventLog :=
  { capacity := capacity, events := [], lastId := 0 }

/-- Modelled from the spec: `append(kind, payload)` (§4.1) — assigns
`lastId + 1`, appends, and evicts the oldest entry when the log would
exceed its capacity. -/
def appendEvent (log : EventLog) (kind payload : String) : Event × EventLog :=
  let e : Event := { eventId := log.lastId + 1, kind := kind, payload := payload }
  let es := log.events ++ [e]
  let retained := if log.capacity < es.length then es.drop 1 else es
  (e, { log with events := retained, lastId := log.lastId + 1 })

/-- Modelled from the spec: `eventsSince(cursor)` (§4.1) — every retained
event with `id > cursor`, oldest first. -/
def eventsSince (log : EventLog) (cursor : Nat) : List Event :=
  log.events.filter (fun e => cursor < e.eventId)

/-- Modelled from the spec: `latestId()` (§4.1) — the high-water mark. -/
def latestId (log : EventLog) : Nat :=
  log.lastId

/-- Append `n` events in sequence (kinds and payloads are irrelevant to the
log-shape properties). -/
def appendMany : EventLog → Nat → EventLog
  | log, 0 => log
  | log, n + 1 => appendMany (appendEvent log "k" "p").2 n

/-- Event-log well-formedness: strictly ascending ids, ids bounded by the
high-water mark, length bounded by capacity. -/
def LogWF (log : EventLog) : Prop :=
  log.events.Pairwise (fun a b => a.eventId < b.eventId) ∧
  (∀ e ∈ log.events, e.eventId ≤ log.lastId) ∧
  log.events.length ≤ log.capacity

/-- A pending long-poll registration (§3): the caller's cursor. The
completion handle is represented by the registration itself. -/
structure Waiter where
  cursor : Nat
deriving DecidableEq, Repr

/-- Modelled from the spec: the Event Dispatcher state (§4.2) — the event
log and the waiter registry it exclusively owns. -/
structure Dispatcher where
  log : EventLog
  waiters : List Waiter
deriving DecidableEq, Repr

/-- Synchronous outcome of a `waitForEvent` call: either an immediate
non-empty batch of events, or the caller was registered as a waiter and
suspended. -/
inductive WaitOutcome where
  | immediate (events : List Event)
  | registered
deriving DecidableEq, Repr

/-- Modelled from the spec: `waitForEvent(cursor, timeout)` (§4.2) — the
history check precedes waiter registration: if `eventsSince(cursor)` is
already non-empty it is returned immediately and no waiter is registered;
otherwise a waiter with this cursor is registered and the caller suspends. -/
def waitForEvent (st : Dispatcher) (cursor : Nat) : WaitOutcome × Dispatcher :=
  let evs := eventsSince st.log cursor
  if evs.isEmpty then
    (WaitOutcome.registered, { st with waiters := st.waiters ++ [{ cursor := cursor }] })
  else
    (WaitOutcome.immediate evs, st)

/-- Modelled from the spec: `publish(kind, payload)` (§4.2) — append to the
log, then resolve every waiter whose cursor is behind `latestId()` with that
waiter's own `eventsSince` slice; resolved waiters leave the registry. The
append and the scan are a single atomic step. Returns the new event, the
resolutions, and the new state. -/
def publish (st : Dispatcher) (kind payload : String) :
    (Event × List (Waiter × List Event)) × Dispatcher :=
  let (e, log1) := appendEvent st.log kind payload
  let resolved := (st.waiters.filter (fun w => w.cursor < latestId log1)).map
    (fun w => (w, eventsSince log1 w.cursor))
  let remaining := st.waiters.filter (fun w => latestId log1 ≤ w.cursor)
  ((e, resolved), { log := log1, waiters := remaining })

/-- Moderation flags (`spec.ModerationFlag`, as enumerated in
`QueryParser.getModerationFlag`). -/
inductive ModerationFlag where
  | onTopic
  | notWorkSafe
  | stupid
  | politicalReligious
  | tangent
  | informative
  | nuked
deriving DecidableEq, Repr

/-- A post (§3). -/
structure Post where
  id : Nat
  threadId : Nat
  parentId : Option Nat
  authorUsername : String
  body : String
  moderationFlags : List ModerationFlag
deriving DecidableEq, Repr

/-- The post carries the `Nuked` flag. -/
def isNuked (p : Post) : Bool :=
  p.moderationFlags.contains ModerationFlag.nuked

/-- The post's parent id is in the given dead set. -/
def parentDead (dead : List Nat) (p : Post) : Bool :=
  match p.parentId with
  | some q => dead.contains q
  | none => false

/-- Walk the posts in parent-before-child order; `dead` holds the ids of
already-visited posts whose descendants must be dropped (posts beneath a
nuke, and nuked posts themselves). A post whose parent is dead is dropped
and becomes dead itself; otherwise it is kept, becoming dead exactly when
it carries the `Nuked` flag. -/
def removeNukedGo (dead : List Nat) : List Post → List Post
  | [] => []
  | p :: rest =>
      if parentDead dead p then
        removeNukedGo (p.id :: dead) rest
      else if isNuked p then
        p :: removeNukedGo (p.id :: dead) rest
      else
        p :: removeNukedGo dead rest

/-- Modelled from the spec: `api.removeNukedSubthreads` /
`pruneNukedSubtrees(posts)` (§4.3), whose implementation file is not part of
the examined fragment — given posts in parent-before-child order, keep a
post unless an ancestor is nuked; a nuked post stays visible but every
descendant is dropped regardless of the descendant's own flags. -/
def removeNukedSubthreads (posts : List Post) : List Post :=
  removeNukedGo [] posts

/-- Some strict ancestor of `p` (through `parentId` links resolved within
`posts`) carries the `Nuked` flag. -/
inductive HasNukedAncestor (posts : List Post) : Post → Prop where
  | direct (p q : Post) : q ∈ posts → p.parentId = some q.id → isNuked q = true →
      HasNukedAncestor posts p
  | trans (p q : Post) : q ∈ posts → p.parentId = some q.id →
      HasNukedAncestor posts q → HasNukedAncestor posts p

/-- The post's parent, when any, is among the ids already seen. -/
def parentSeen (seen : List Nat) (p : Post) : Bool :=
  match p.parentId with
  | some q => seen.contains q
  | none => true

/-- Parent-before-child order with fresh ids: every post's parent id was
listed earlier and no id repeats (the shape `assembleThreads` guarantees,
§4.3). -/
def threadWF (seen : List Nat) : List Post → Bool
  | [] => true
  | p :: rest => parentSeen seen p && !(seen.contains p.id) && threadWF (p.id :: seen) rest

/-- Modelled from the spec: `server.threadConnector.getThreads(ids)` — the
Post Store contract (§6): all posts of each requested thread, unknown ids
omitted; per-thread posts keep their stored (parent-before-child) order. -/
def getThreads (store : List Post) (ids : List Nat) : List Post :=
  ids.flatMap (fun rid => store.filter (fun p => p.threadId == rid))

/-- The `/v2/getPost` route body after parameter parsing (getPost.ts):
fetch the threads, prune nuked subtrees, index the surviving posts by id,
then look the originally requested ids up in order, silently skipping ids
with no surviving post. -/
def getPostRouteCore (store : List Post) (ids : List Nat) : List Post :=
  let unnuked := removeNukedSubthreads (getThreads store ids)
  ids.filterMap (fun i => unnuked.find? (fun p => p.id == i))

/-- The `/v2/waitForEvent` route's response shape. -/
structure WaitResponse where
  lastEventId : Nat
  events : List Event
deriving DecidableEq, Repr

/-- The `/v2/waitForEvent` route's response construction (waitForEvent.ts):
with a non-empty batch, `lastEventId` is the final event's id; otherwise the
caller-supplied cursor is echoed back. -/
def makeWaitResponse (lastEventId : Nat) (events : List Event) : WaitResponse :=
  if 0 < events.length then
    { lastEventId := (events.getLastD { eventId := 0, kind := "", payload := "" }).eventId,
      events := events }
  else
    { lastEventId := lastEventId, events := events }

/-- The `/v2/waitForEvent` route (waitForEvent.ts): parse `lastEventId` with
`getInteger` (bounds 0..2147483647 by default), then call the dispatcher.
A parse failure surfaces before the dispatcher is touched. In the suspended
case the eventual resolution happens later; the response shown is the one a
timeout resolution (empty batch) would produce. -/
def waitForEventRoute (q : Query) (st : Dispatcher) :
    Except ApiError WaitResponse × Dispatcher :=
  match getInteger q "lastEventId" 0 2147483647 with
  | .error e => (.error e, st)
  | .ok cursor =>
      match waitForEvent st cursor with
      | (WaitOutcome.immediate evs, st1) => (.ok (makeWaitResponse cursor evs), st1)
      | (WaitOutcome.registered, st1) => (.ok (makeWaitResponse cursor []), st1)

/-- The `/v2/clientData/setCategoryFilters` route (setCategoryFilters.ts):
parse `username` and the five booleans, then build the filter list in the
fixed source order. Returns the `(username, filters)` pair that is passed to
`clientDataConnector.setModerationFlagFilters`; an error means the connector
is never called. -/
def setCategoryFiltersRoute (q : Query) :
    Except ApiError (String × List ModerationFlag) :=
  match getString q "username" 1 50 with
  | .error e => .error e
  | .ok username =>
  match getBoolean q "nws" with
  | .error e => .error e
  | .ok nws =>
  match getBoolean q "stupid" with
  | .error e => .error e
  | .ok stupid =>
  match getBoolean q "political" with
  | .error e => .error e
  | .ok political =>
  match getBoolean q "tangent" with
  | .error e => .error e
  | .ok tangent =>
  match getBoolean q "informative" with
  | .error e => .error e
  | .ok informative =>
      .ok (username,
        (if nws then [ModerationFlag.notWorkSafe] else []) ++
        (if stupid then [ModerationFlag.stupid] else []) ++
        (if political then [ModerationFlag.politicalReligious] else []) ++
        (if tangent then [ModerationFlag.tangent] else []) ++
        (if informative then [ModerationFlag.informative] else []))

/-- `MemoryUserAccount` (memory connector): the access level and
registration date are opaque here. -/
structure MemoryUserAccount where
  username : String
  password : String
  registrationDate : Nat
  level : Nat
deriving DecidableEq, Repr

/-- `spec.UserCredentials(username, password, level)`. -/
structure UserCredentials where
  username : String
  password : String
  level : Nat
deriving DecidableEq, Repr

/-- `Dictionary.lookup(username, null)` over the accounts dictionary keyed
by exact username: the account stored under that exact key. -/
def accountLookup (accounts : List MemoryUserAccount) (username : String) :
    Option MemoryUserAccount :=
  accounts.find? (fun a => a.username == username)

/-- `MemoryAccountConnector.tryLogin(username, password)`: exact-key lookup,
then exact password comparison; `null` (here `none`) on either mismatch. -/
def tryLogin (accounts : List MemoryUserAccount) (username password : String) :
    Option UserCredentials :=
  match accountLookup accounts username with
  | none => none
  | some account =>
      if account.password == password then
        some { username := username, password := password, level := account.level }
      else none

/-- `x.toLowerCase()` on the ASCII usernames used here. -/
def lowerStr (s : String) : String :=
  String.mk (s.toList.map Char.toLower)

/-- `MemoryAccountConnector.userExists(username)`: some stored key equals
the argument after lowercasing both sides. -/
def userExists (accounts : List MemoryUserAccount) (username : String) : Bool :=
  accounts.any (fun a => lowerStr a.username == lowerStr username)

/-! Concrete fixtures used to instantiate the theorems. -/

/-- Root post of the nuke-propagation example thread. -/
def postA : Post :=
  { id := 1, threadId := 1, parentId := none, authorUsername := "u", body := "a",
    moderationFlags := [] }

/-- Child of `postA`, nuked. -/
def postB : Post :=
  { id := 2, threadId := 1, parentId := some 1, authorUsername := "u", body := "b",
    moderationFlags := [ModerationFlag.nuked] }

/-- Child of `postB`, itself unflagged. -/
def postC : Post :=
  { id := 3, threadId := 1, parentId := some 2, authorUsername := "u", body := "c",
    moderationFlags := [] }

/-- Child of `postA`, sibling branch of `postB`. -/
def postD : Post :=
  { id := 4, threadId := 1, parentId := some 1, authorUsername := "u", body := "d",
    moderationFlags := [] }

/-- A dispatcher with an empty five-slot log and no waiters. -/
def dispatcher0 : Dispatcher :=
  { log := emptyLog 5, waiters := [] }

/-- A request carrying the invalid (negative) cursor string. -/
def qBadCursor : Query :=
  fun n => if n = "lastEventId" then some "-5" else none

/-- A `getPost` request with two ids. -/
def qIdPair : Query :=
  fun n => if n = "id" then some "3,4" else none

/-- A `getPost` request with a single id. -/
def qIdSingle : Query :=
  fun n => if n = "id" then some "3" else none

/-- A complete `setCategoryFilters` request. -/
def qFilters : Query := fun n =>
  if n = "username" then some "alice"
  else if n = "nws" then some "true"
  else if n = "stupid" then some "true"
  else if n = "political" then some "true"
  else if n = "tangent" then some "true"
  else if n = "informative" then some "true"
  else none

/-- A concrete event. -/
def event9 : Event :=
  { eventId := 9, kind := "k", payload := "p" }

/-- A stored account with a mixed-case username. -/
def aliceAccount : MemoryUserAccount :=
  { username := "Alice", password := "pw", registrationDate := 0, level := 0 }

/-- A ten-slot log holding three events. -/
def log3 : EventLog :=
  appendMany (emptyLog 10) 3

/-! ## Theorems -/

/-- Every error produced by `getInteger` carries the `ERR_ARGUMENT` code;
in particular a parameter value failing the `^[0-9]+$` test (such as a
negative cursor) is rejected. -/
theorem getInteger_regex_fail (q : Query) (name s : String) (min max : Nat)
    (hq : q name = some s) (hs : integerRegExTest s = false) :
    ∃ e, getInteger q name min max = .error e ∧ e.code = "ERR_ARGUMENT" := by
  unfold getInteger getString queryGet
  rw [hq]
  by_cases h0 : s = ""
  · simp [h0, argError]
  · simp only [if_neg h0]
    by_cases h1 : s.length < 1
    · simp [h1, argError]
    · simp only [if_neg h1]
      by_cases h2 : 10 < s.length
      · simp [h2, argError]
      · simp [h2, hs, argError]

/-- C4: a `/v2/waitForEvent` request whose cursor parameter fails the
decimal-integer test (for example a negative value) is rejected with an
`ERR_ARGUMENT` error before the dispatcher is consulted, and the dispatcher
state — in particular the waiter registry — is unchanged. -/
theorem waitForEventRoute_invalid_cursor (q : Query) (st : Dispatcher) (s : String)
    (hq : q "lastEventId" = some s) (hs : integerRegExTest s = false) :
    ∃ e, waitForEventRoute q st = (.error e, st) ∧ e.code = "ERR_ARGUMENT" := by
  obtain ⟨e, he, hcode⟩ := getInteger_regex_fail q "lastEventId" s 0 2147483647 hq hs
  exact ⟨e, by simp [waitForEventRoute, he], hcode⟩

/-- Witness for C4: the request with cursor string `-5` against the fresh
dispatcher. -/
theorem waitForEventRoute_invalid_cursor_witness :
    ∃ e, waitForEventRoute qBadCursor dispatcher0 = (.error e, dispatcher0) ∧
      e.code = "ERR_ARGUMENT" :=
  waitForEventRoute_invalid_cursor qBadCursor dispatcher0 "-5" rfl rfl

/-- C6: `getIntegerList` as called by `/v2/getPost` (`1..50` ids, each at
least 1) rejects the two-id request `3,4` — lodash passes each element's
index to `parseInt` as the radix, so the second element is parsed with the
invalid radix 1, yielding `NaN`, which fails the minimum check and aborts
the whole call — while the same request with the single id `3` parses. -/
theorem getIntegerList_radix_failure :
    (∃ e, getIntegerList qIdPair "id" 1 50 1 2147483647 = .error e ∧
      e.code = "ERR_ARGUMENT") ∧
    jsParseInt "4" 1 = none ∧
    getIntegerList qIdSingle "id" 1 50 1 2147483647 = .ok [3] :=
  ⟨⟨_, rfl, rfl⟩, rfl, rfl⟩

/-- C8: the `/v2/waitForEvent` response echoes the caller's cursor exactly
when the batch is empty, and otherwise reports the final event's id; the
route builds its reply with this construction whenever the dispatcher
answers immediately. -/
theorem waitForEventRoute_lastEventId (le : Nat) (events : List Event) :
    (events = [] → makeWaitResponse le events = { lastEventId := le, events := [] }) ∧
    (∀ front e, events = front ++ [e] →
      makeWaitResponse le events = { lastEventId := e.eventId, events := events }) ∧
    (∀ q st cursor evs st1,
      getInteger q "lastEventId" 0 2147483647 = .ok cursor →
      waitForEvent st cursor = (WaitOutcome.immediate evs, st1) →
      waitForEventRoute q st = (.ok (makeWaitResponse cursor evs), st1)) := by
  refine ⟨?_, ?_, ?_⟩
  · rintro rfl
    simp [makeWaitResponse]
  · rintro front e rfl
    simp [makeWaitResponse, List.getLastD_eq_getLast?, List.getLast?_concat]
  · intro q st cursor evs st1 hparse hwait
    simp [waitForEventRoute, hparse, hwait]

/-- Witness for C8: cursor 7 with the one-event batch `[event9]` yields a
reply whose `lastEventId` is 9. -/
theorem waitForEventRoute_lastEventId_witness :
    makeWaitResponse 7 [event9] = { lastEventId := 9, events := [event9] } :=
  (waitForEventRoute_lastEventId 7 [event9]).2.1 [] event9 rfl

/-- C10: `userExists` matches stored usernames case-insensitively while
`tryLogin` looks the account up by exact username; consequently the stored
account `Alice` is reported as existing for the query `alice`, yet logging
in as `alice` with the correct password yields `null`. -/
theorem memoryAccount_case_sensitivity (accounts : List MemoryUserAccount)
    (username password : String)
    (hkeys : (accounts.map MemoryUserAccount.username).Nodup) :
    (userExists accounts username = true ↔
      ∃ a ∈ accounts, lowerStr a.username = lowerStr username) ∧
    ((∃ c, tryLogin accounts username password = some c) ↔
      ∃ a ∈ accounts, a.username = username ∧ a.password = password) ∧
    (userExists [aliceAccount] "alice" = true ∧
      tryLogin [aliceAccount] "alice" "pw" = none) := by
  refine ⟨?_, ⟨?_, ?_⟩, by decide, by decide⟩
  · simp [userExists, List.any_eq_true]
  · rintro ⟨c, hc⟩
    unfold tryLogin at hc
    cases hfind : accountLookup accounts username with
    | none => rw [hfind] at hc; simp at hc
    | some account =>
        rw [hfind] at hc
        dsimp only at hc
        have hmem := List.mem_of_find?_eq_some hfind
        have hname : account.username = username := by
          simpa using List.find?_some hfind
        by_cases hpw : (account.password == password) = true
        · exact ⟨account, hmem, hname, by simpa using hpw⟩
        · rw [if_neg hpw] at hc; simp at hc
  · rintro ⟨a, hmem, hname, hpw⟩
    cases hfind : accountLookup accounts username with
    | none =>
        rw [accountLookup, List.find?_eq_none] at hfind
        exact absurd (by simpa using hname) (hfind a hmem)
    | some b =>
        have hbmem := List.mem_of_find?_eq_some hfind
        have hbname : b.username = username := by
          simpa using List.find?_some hfind
        have hba : b = a :=
          List.inj_on_of_nodup_map hkeys hbmem hmem (hbname.trans hname.symm)
        refine ⟨{ username := username, password := password, level := a.level }, ?_⟩
        unfold tryLogin
        rw [hfind, hba]
        dsimp only
        rw [if_pos (by simpa using hpw)]

/-- Witness for C10: the singleton store containing `Alice`. -/
theorem memoryAccount_case_sensitivity_witness :
    userExists [aliceAccount] "alice" = true ∧
      tryLogin [aliceAccount] "alice" "pw" = none :=
  (memoryAccount_case_sensitivity [aliceAccount] "alice" "pw" (by decide)).2.2

/-- The filter list shape produced by the route is always an ordered
sub-list of the five category flags, whatever the five booleans are. -/
theorem filters_shape (b1 b2 b3 b4 b5 : Bool) :
    ((if b1 then [ModerationFlag.notWorkSafe] else []) ++
      (if b2 then [ModerationFlag.stupid] else []) ++
      (if b3 then [ModerationFlag.politicalReligious] else []) ++
      (if b4 then [ModerationFlag.tangent] else []) ++
      (if b5 then [ModerationFlag.informative] else [])).Sublist
      [ModerationFlag.notWorkSafe, ModerationFlag.stupid,
        ModerationFlag.politicalReligious, ModerationFlag.tangent,
        ModerationFlag.informative] := by
  cases b1 <;> cases b2 <;> cases b3 <;> cases b4 <;> cases b5 <;> decide

/-- A successful `getBoolean` requires the parameter to be present and
non-empty. -/
theorem getBoolean_ok_has (q : Query) (name : String) (b : Bool)
    (h : getBoolean q name = .ok b) : queryHas q name = true := by
  unfold getBoolean queryGet at h
  unfold queryHas
  cases hq : q name with
  | none => rw [hq] at h; simp at h
  | some s =>
      rw [hq] at h
      dsimp only at h
      by_cases h0 : s = ""
      · rw [if_pos h0] at h; simp at h
      · simpa using h0

/-- Every error produced by `getString` carries the `ERR_ARGUMENT` code. -/
theorem getString_error_code (q : Query) (name : String) (a b : Nat) (x : ApiError)
    (hx : getString q name a b = .error x) : x.code = "ERR_ARGUMENT" := by
  unfold getString queryGet at hx
  cases hq : q name with
  | none =>
      rw [hq] at hx
      dsimp only at hx
      simp only [Except.error.injEq] at hx
      subst hx
      rfl
  | some s =>
      rw [hq] at hx
      dsimp only at hx
      by_cases h0 : s = ""
      · rw [if_pos h0] at hx
        dsimp only at hx
        simp only [Except.error.injEq] at hx
        subst hx
        rfl
      · rw [if_neg h0] at hx
        dsimp only at hx
        by_cases h1 : s.length < a
        · rw [if_pos h1] at hx
          simp only [Except.error.injEq] at hx
          subst hx
          rfl
        · rw [if_neg h1] at hx
          by_cases h2 : b < s.length
          · rw [if_pos h2] at hx
            simp only [Except.error.injEq] at hx
            subst hx
            rfl
          · rw [if_neg h2] at hx
            simp at hx

/-- Every error produced by `getBoolean` carries the `ERR_ARGUMENT` code. -/
theorem getBoolean_error_code (q : Query) (name : String) (x : ApiError)
    (hx : getBoolean q name = .error x) : x.code = "ERR_ARGUMENT" := by
  unfold getBoolean queryGet at hx
  cases hq : q name with
  | none =>
      rw [hq] at hx
      dsimp only at hx
      simp only [Except.error.injEq] at hx
      subst hx
      rfl
  | some s =>
      rw [hq] at hx
      dsimp only at hx
      by_cases h0 : s = ""
      · rw [if_pos h0] at hx
        dsimp only at hx
        simp only [Except.error.injEq] at hx
        subst hx
        rfl
      · rw [if_neg h0] at hx
        dsimp only at hx
        by_cases h1 : s = "true"
        · rw [if_pos h1] at hx
          simp at hx
        · rw [if_neg h1] at hx
          by_cases h2 : s = "false"
          · rw [if_pos h2] at hx
            simp at hx
          · rw [if_neg h2] at hx
            simp only [Except.error.injEq] at hx
            subst hx
            rfl

/-- Every error produced by `setCategoryFiltersRoute` carries the
`ERR_ARGUMENT` code. -/
theorem setCategoryFilters_error_code (q : Query) (e : ApiError)
    (h : setCategoryFiltersRoute q = .error e) : e.code = "ERR_ARGUMENT" := by
  unfold setCategoryFiltersRoute at h
  split at h
  · rename_i x heq
    have hxe : x = e := by simpa using h
    exact hxe ▸ getString_error_code q "username" 1 50 x heq
  · split at h
    · rename_i x heq
      have hxe : x = e := by simpa using h
      exact hxe ▸ getBoolean_error_code q "nws" x heq
    · split at h
      · rename_i x heq
        have hxe : x = e := by simpa using h
        exact hxe ▸ getBoolean_error_code q "stupid" x heq
      · split at h
        · rename_i x heq
          have hxe : x = e := by simpa using h
          exact hxe ▸ getBoolean_error_code q "political" x heq
        · split at h
          · rename_i x heq
            have hxe : x = e := by simpa using h
            exact hxe ▸ getBoolean_error_code q "tangent" x heq
          · split at h
            · rename_i x heq
              have hxe : x = e := by simpa using h
              exact hxe ▸ getBoolean_error_code q "informative" x heq
            · simp at h

/-- A successful `setCategoryFiltersRoute` call parsed all five category
booleans, so each of the five parameters was present. -/
theorem setCategoryFilters_ok_has (q : Query) (val : String × List ModerationFlag)
    (h : setCategoryFiltersRoute q = .ok val) :
    queryHas q "nws" = true ∧ queryHas q "stupid" = true ∧
    queryHas q "political" = true ∧ queryHas q "tangent" = true ∧
    queryHas q "informative" = true := by
  unfold setCategoryFiltersRoute at h
  split at h
  · simp at h
  split at h
  · simp at h
  rename_i nws h1
  split at h
  · simp at h
  rename_i stupid h2
  split at h
  · simp at h
  rename_i political h3
  split at h
  · simp at h
  rename_i tangent h4
  split at h
  · simp at h
  rename_i informative h5
  exact ⟨getBoolean_ok_has q "nws" nws h1, getBoolean_ok_has q "stupid" stupid h2,
    getBoolean_ok_has q "political" political h3,
    getBoolean_ok_has q "tangent" tangent h4,
    getBoolean_ok_has q "informative" informative h5⟩

/-- C9: a successful `setCategoryFilters` call passes the connector a
filter list that is an ordered sub-list of the five category flags and
never contains `Nuked` or `OnTopic`; a request missing any of the five
boolean parameters fails with an `ERR_ARGUMENT` error, so the connector is
never called. -/
theorem setCategoryFilters_route_spec (q : Query) :
    (∀ u fs, setCategoryFiltersRoute q = .ok (u, fs) →
      fs.Sublist [ModerationFlag.notWorkSafe, ModerationFlag.stupid,
        ModerationFlag.politicalReligious, ModerationFlag.tangent,
        ModerationFlag.informative] ∧
      ModerationFlag.nuked ∉ fs ∧ ModerationFlag.onTopic ∉ fs) ∧
    (∀ name, name ∈ (["nws", "stupid", "political", "tangent",
        "informative"] : List String) →
      queryHas q name = false →
      ∃ e, setCategoryFiltersRoute q = .error e ∧ e.code = "ERR_ARGUMENT") := by
  constructor
  · intro u fs h
    unfold setCategoryFiltersRoute at h
    split at h
    · simp at h
    split at h
    · simp at h
    rename_i nws _
    split at h
    · simp at h
    rename_i stupid _
    split at h
    · simp at h
    rename_i political _
    split at h
    · simp at h
    rename_i tangent _
    split at h
    · simp at h
    rename_i informative _
    simp only [Except.ok.injEq, Prod.mk.injEq] at h
    obtain ⟨-, rfl⟩ := h
    refine ⟨filters_shape nws stupid political tangent informative, ?_, ?_⟩
    · intro hmem
      have := (filters_shape nws stupid political tangent informative).subset hmem
      simp at this
    · intro hmem
      have := (filters_shape nws stupid political tangent informative).subset hmem
      simp at this
  · intro name hnm hhas
    cases hroute : setCategoryFiltersRoute q with
    | error e => exact ⟨e, rfl, setCategoryFilters_error_code q e hroute⟩
    | ok val =>
        exfalso
        obtain ⟨h1, h2, h3, h4, h5⟩ := setCategoryFilters_ok_has q val hroute
        simp only [List.mem_cons, List.not_mem_nil, or_false] at hnm
        rcases hnm with rfl | rfl | rfl | rfl | rfl
        · rw [h1] at hhas; cases hhas
        · rw [h2] at hhas; cases hhas
        · rw [h3] at hhas; cases hhas
        · rw [h4] at hhas; cases hhas
        · rw [h5] at hhas; cases hhas

/-- Witness for C9: the complete request `qFilters` succeeds and its filter
list omits `Nuked`. -/
theorem setCategoryFilters_route_spec_witness :
    ModerationFlag.nuked ∉ ([ModerationFlag.notWorkSafe, ModerationFlag.stupid,
      ModerationFlag.politicalReligious, ModerationFlag.tangent,
      ModerationFlag.informative] : List ModerationFlag) :=
  ((setCategoryFilters_route_spec qFilters).1 "alice"
    [ModerationFlag.notWorkSafe, ModerationFlag.stupid,
      ModerationFlag.politicalReligious, ModerationFlag.tangent,
      ModerationFlag.informative] rfl).2.1

/-- Filtering a strictly-sorted event list by `cursor < id` keeps a suffix:
once one event is newer than the cursor, all later ones are. -/
theorem filter_since_suffix (c : Nat) :
    ∀ l : List Event, l.Pairwise (fun a b => a.eventId < b.eventId) →
      (l.filter (fun e => c < e.eventId)).IsSuffix l := by
  intro l
  induction l with
  | nil => intro _; exact List.nil_suffix
  | cons a t ih =>
      intro hp
      rw [List.pairwise_cons] at hp
      by_cases ha : c < a.eventId
      · have hall : t.filter (fun e => decide (c < e.eventId)) = t :=
          List.filter_eq_self.mpr (fun b hb => by
            simpa using Nat.lt_trans ha (hp.1 b hb))
        have : (a :: t).filter (fun e => decide (c < e.eventId)) = a :: t := by
          rw [List.filter_cons_of_pos (by simpa using ha), hall]
        rw [this]
      · have : (a :: t).filter (fun e => decide (c < e.eventId)) =
            t.filter (fun e => decide (c < e.eventId)) :=
          List.filter_cons_of_neg (by simpa using ha)
        rw [this]
        exact (ih hp.2).trans (List.suffix_cons a t)

/-- C3: for any well-formed log and cursor `c ≤ latestId()`, `eventsSince c`
consists of exactly the retained events with id strictly greater than `c`,
is strictly ascending in id (hence duplicate-free), and is a suffix of the
retained history (no gaps relative to retained events, oldest first). -/
theorem eventsSince_exact (log : EventLog) (c : Nat) (hwf : LogWF log)
    (hc : c ≤ latestId log) :
    (∀ e, e ∈ eventsSince log c ↔ e ∈ log.events ∧ c < e.eventId) ∧
    (eventsSince log c).Pairwise (fun a b => a.eventId < b.eventId) ∧
    (eventsSince log c).Nodup ∧
    (eventsSince log c).IsSuffix log.events := by
  refine ⟨?_, ?_, ?_, ?_⟩
  · intro e
    simp [eventsSince, List.mem_filter]
  · exact List.Pairwise.sublist (List.filter_sublist _) hwf.1
  · refine List.Pairwise.imp ?_ (List.Pairwise.sublist (List.filter_sublist _) hwf.1)
    intro a b hab heq
    exact Nat.lt_irrefl _ (heq ▸ hab)
  · exact filter_since_suffix c log.events hwf.1

/-- Witness for C3: a three-event log with cursor 1. -/
theorem eventsSince_exact_witness :
    (eventsSince log3 1).IsSuffix log3.events :=
  (eventsSince_exact log3 1 ⟨by decide, by decide, by decide⟩ (by decide)).2.2.2

/-- Appending preserves event-log well-formedness: ids stay strictly
ascending, bounded by the new high-water mark, and the length stays within
capacity. -/
theorem logWF_append (log : EventLog) (k p : String) (h : LogWF log) :
    LogWF (appendEvent log k p).2 := by
  obtain ⟨hsort, hbound, hlen⟩ := h
  have hsort2 : (log.events ++ [({ eventId := log.lastId + 1, kind := k, payload := p } : Event)]).Pairwise
      (fun a b => a.eventId < b.eventId) := by
    rw [List.pairwise_append]
    refine ⟨hsort, List.pairwise_singleton _ _, ?_⟩
    intro a ha b hb
    rw [List.mem_singleton] at hb
    subst hb
    exact Nat.lt_succ_of_le (hbound a ha)
  have hbound2 : ∀ x ∈ log.events ++ [({ eventId := log.lastId + 1, kind := k, payload := p } : Event)],
      x.eventId ≤ log.lastId + 1 := by
    intro x hx
    rcases List.mem_append.mp hx with hx | hx
    · exact Nat.le_succ_of_le (hbound x hx)
    · rw [List.mem_singleton] at hx
      subst hx
      exact Nat.le_refl _
  refine ⟨?_, ?_, ?_⟩ <;> simp only [appendEvent]
  · split
    · exact List.Pairwise.sublist (List.drop_sublist 1 _) hsort2
    · exact hsort2
  · split
    · intro x hx
      exact hbound2 x (List.mem_of_mem_drop hx)
    · exact hbound2
  · split
    · rename_i hcond
      simp only [List.length_drop]
      simp only [List.length_append, List.length_singleton] at hcond ⊢
      omega
    · rename_i hcond
      simp only [List.length_append, List.length_singleton] at hcond ⊢
      omega

/-- `appendMany` peels its last append. -/
theorem appendMany_succ (log : EventLog) (n : Nat) :
    appendMany log (n + 1) = (appendEvent (appendMany log n) "k" "p").2 := by
  induction n generalizing log with
  | zero => rfl
  | succ n ih =>
      show appendMany (appendEvent log "k" "p").2 (n + 1) = _
      rw [ih]
      rfl

/-- Shape of the log after `n` appends into an empty log of capacity `L`:
the high-water mark is `n` and the retained ids are the last `min n L`
consecutive integers ending at `n`. -/
theorem appendMany_shape (L : Nat) : ∀ n : Nat,
    (appendMany (emptyLog L) n).capacity = L ∧
    (appendMany (emptyLog L) n).lastId = n ∧
    (appendMany (emptyLog L) n).events.map Event.eventId =
      List.range' (n - Nat.min n L + 1) (Nat.min n L) := by
  intro n
  induction n with
  | zero => simp [appendMany, emptyLog]
  | succ n ih =>
      obtain ⟨hcap, hlast, hmap⟩ := ih
      rw [appendMany_succ]
      have hlen : (appendMany (emptyLog L) n).events.length = Nat.min n L := by
        have := congrArg List.length hmap
        simpa using this
      have hmle : Nat.min n L ≤ n := Nat.min_le_left n L
      refine ⟨by simp [appendEvent, hcap], by simp [appendEvent, hlast], ?_⟩
      simp only [appendEvent, hcap, hlast]
      have hconcat :
          ((appendMany (emptyLog L) n).events ++
            [({ eventId := n + 1, kind := "k", payload := "p" } : Event)]).map Event.eventId =
          List.range' (n - Nat.min n L + 1) (Nat.min n L + 1) := by
        rw [List.map_append, hmap]
        simp only [List.map_cons, List.map_nil]
        rw [List.range'_concat]
        congr 2
        omega
      by_cases hLn : L ≤ n
      · have hm : Nat.min n L = L := Nat.min_eq_right hLn
        have hm2 : Nat.min (n + 1) L = L := Nat.min_eq_right (Nat.le_succ_of_le hLn)
        rw [if_pos (by simp [List.length_append, hlen, hm])]
        rw [List.map_drop, hconcat, hm, hm2]
        rw [List.range'_succ]
        simp only [List.drop_succ_cons, List.drop_zero]
        congr 1
        omega
      · have hnL : n < L := Nat.lt_of_not_le hLn
        have hm : Nat.min n L = n := Nat.min_eq_left (Nat.le_of_lt hnL)
        have hm2 : Nat.min (n + 1) L = n + 1 := Nat.min_eq_left hnL
        rw [if_neg (by simp [List.length_append, hlen, hm]; omega)]
        rw [hconcat, hm, hm2]
        congr 1
        omega

/-- C7: the event log stays sorted ascending by id under every append;
appending to a log already at its capacity `L` evicts exactly the oldest
event (never one from the middle), and appending `L + 1` events into an
empty log of capacity `L` retains exactly `L` events — ids `2..L+1`, the
oldest evicted — while `latestId()` is `L + 1`, unchanged by the eviction. -/
theorem eventLog_capacity_eviction (L : Nat) (hL : 1 ≤ L) :
    (∀ log k p, LogWF log → LogWF (appendEvent log k p).2) ∧
    (∀ log k p, latestId (appendEvent log k p).2 = latestId log + 1) ∧
    (∀ log k p, log.capacity = L → log.events.length = L →
      (appendEvent log k p).2.events =
        log.events.drop 1 ++ [(appendEvent log k p).1]) ∧
    ((appendMany (emptyLog L) (L + 1)).events.length = L ∧
      (appendMany (emptyLog L) (L + 1)).events.map Event.eventId =
        List.range' 2 L ∧
      latestId (appendMany (emptyLog L) (L + 1)) = L + 1) := by
  refine ⟨fun log k p h => logWF_append log k p h, ?_, ?_, ?_⟩
  · intro log k p
    simp [appendEvent, latestId]
  · intro log k p hc he
    simp only [appendEvent]
    rw [if_pos (by simp [List.length_append, he, hc])]
    exact List.drop_append_of_le_length (by omega)
  · obtain ⟨hcap, hlast, hmap⟩ := appendMany_shape L (L + 1)
    have hmin : Nat.min (L + 1) L = L := Nat.min_eq_right (Nat.le_succ L)
    refine ⟨?_, ?_, ?_⟩
    · have := congrArg List.length hmap
      simpa [hmin] using this
    · rw [hmap, hmin]
      congr 1
      omega
    · simpa [latestId] using hlast

/-- Witness for C7: capacity 3, four appends retain ids `[2, 3, 4]`. -/
theorem eventLog_capacity_eviction_witness :
    (appendMany (emptyLog 3) 4).events.map Event.eventId = List.range' 2 3 :=
  (eventLog_capacity_eviction 3 (by decide)).2.2.2.2.1

/-- C1: `waitForEvent` checks history before registering: a non-empty
`eventsSince(cursor)` is returned immediately with the dispatcher state
(waiter registry included) untouched; and after any `publish` against a
state whose log the caller's cursor has not outrun, the published event is
in `eventsSince(cursor)` and the very next `waitForEvent` returns it
immediately instead of blocking, so the event is not lost. -/
theorem waitForEvent_no_lost_wakeup (st : Dispatcher) (cursor : Nat) (k p : String)
    (hcap : 1 ≤ st.log.capacity) (hcur : cursor ≤ latestId st.log) :
    (eventsSince st.log cursor ≠ [] →
      waitForEvent st cursor = (WaitOutcome.immediate (eventsSince st.log cursor), st)) ∧
    (eventsSince (publish st k p).2.log cursor ≠ [] ∧
      (publish st k p).1.1 ∈ eventsSince (publish st k p).2.log cursor ∧
      waitForEvent (publish st k p).2 cursor =
        (WaitOutcome.immediate (eventsSince (publish st k p).2.log cursor),
          (publish st k p).2)) := by
  constructor
  · intro h
    simp only [waitForEvent]
    rw [if_neg (by simpa using h)]
  · have he : (publish st k p).1.1 =
        { eventId := st.log.lastId + 1, kind := k, payload := p } := by
      simp [publish, appendEvent]
    have hlog : (publish st k p).2.log.events =
        if st.log.capacity <
            (st.log.events ++
              [({ eventId := st.log.lastId + 1, kind := k, payload := p } : Event)]).length
        then (st.log.events ++
          [({ eventId := st.log.lastId + 1, kind := k, payload := p } : Event)]).drop 1
        else st.log.events ++
          [({ eventId := st.log.lastId + 1, kind := k, payload := p } : Event)] := by
      simp [publish, appendEvent]
    have hmem : ({ eventId := st.log.lastId + 1, kind := k, payload := p } : Event) ∈
        (publish st k p).2.log.events := by
      rw [hlog]
      split
      · rename_i hcond
        cases hevs : st.log.events with
        | nil =>
            rw [hevs] at hcond
            simp at hcond
            exact absurd hcap (by omega)
        | cons a t => simp
      · exact List.mem_append_right _ (List.mem_singleton_self _)
    have hmem2 : ({ eventId := st.log.lastId + 1, kind := k, payload := p } : Event) ∈
        eventsSince (publish st k p).2.log cursor := by
      rw [eventsSince, List.mem_filter]
      exact ⟨hmem, by simpa using Nat.lt_succ_of_le hcur⟩
    have hne : eventsSince (publish st k p).2.log cursor ≠ [] :=
      List.ne_nil_of_mem hmem2
    refine ⟨hne, by rw [he]; exact hmem2, ?_⟩
    simp only [waitForEvent]
    rw [if_neg (by simpa using hne)]

/-- Witness for C1: publishing against the fresh dispatcher with cursor 0. -/
theorem waitForEvent_no_lost_wakeup_witness :
    (publish dispatcher0 "k" "p").1.1 ∈
      eventsSince (publish dispatcher0 "k" "p").2.log 0 :=
  (waitForEvent_no_lost_wakeup dispatcher0 0 "k" "p" (by decide) (by decide)).2.2.1
/-- Whatever survives the prune walk was among the input posts. -/
theorem removeNukedGo_subset (l : List Post) :
    ∀ (dead : List Nat) (p : Post), p ∈ removeNukedGo dead l → p ∈ l := by
  induction l with
  | nil => intro dead p hp; simp [removeNukedGo] at hp
  | cons a t ih =>
      intro dead p hp
      simp only [removeNukedGo] at hp
      split at hp
      · exact List.mem_cons_of_mem a (ih _ p hp)
      · split at hp
        · rcases List.mem_cons.mp hp with rfl | hp
          · exact List.mem_cons_self _ _
          · exact List.mem_cons_of_mem a (ih _ p hp)
        · rcases List.mem_cons.mp hp with rfl | hp
          · exact List.mem_cons_self _ _
          · exact List.mem_cons_of_mem a (ih _ p hp)

/-- In a parent-before-child well-formed list, no listed id was already
seen. -/
theorem threadWF_not_seen (l : List Post) :
    ∀ seen : List Nat, threadWF seen l = true → ∀ p ∈ l, p.id ∉ seen := by
  induction l with
  | nil => intro seen _ p hp; cases hp
  | cons a t ih =>
      intro seen hwf p hp
      have h3 : parentSeen seen a = true ∧ seen.contains a.id = false ∧
          threadWF (a.id :: seen) t = true := by
        simp only [threadWF, Bool.and_eq_true, Bool.not_eq_true'] at hwf
        exact ⟨hwf.1.1, hwf.1.2, hwf.2⟩
      rcases List.mem_cons.mp hp with rfl | hp
      · simpa using h3.2.1
      · have hrec := ih (a.id :: seen) h3.2.2 p hp
        intro hc
        exact hrec (List.mem_cons_of_mem _ hc)

/-- A parent-before-child well-formed list has pairwise distinct ids. -/
theorem threadWF_nodup (l : List Post) :
    ∀ seen : List Nat, threadWF seen l = true → (l.map Post.id).Nodup := by
  induction l with
  | nil => intro seen _; simp
  | cons a t ih =>
      intro seen hwf
      have h3 : parentSeen seen a = true ∧ seen.contains a.id = false ∧
          threadWF (a.id :: seen) t = true := by
        simp only [threadWF, Bool.and_eq_true, Bool.not_eq_true'] at hwf
        exact ⟨hwf.1.1, hwf.1.2, hwf.2⟩
      rw [List.map_cons, List.nodup_cons]
      constructor
      · intro hmem
        obtain ⟨r, hr, hrid⟩ := List.mem_map.mp hmem
        exact threadWF_not_seen t (a.id :: seen) h3.2.2 r hr (by simp [hrid])
      · exact ih (a.id :: seen) h3.2.2

/-- The prune-walk invariant: while walking `rest` with already-visited
posts `processed` and dead-id set `dead`, a post of `rest` survives exactly
when no strict ancestor of it (in the full thread `P`) is nuked. -/
theorem removeNukedGo_mem_iff (P : List Post)
    (hUnique : ∀ a ∈ P, ∀ b ∈ P, a.id = b.id → a = b) :
    ∀ (rest processed : List Post) (dead : List Nat),
      (∀ r ∈ processed, r ∈ P) →
      (∀ r ∈ rest, r ∈ P) →
      threadWF (processed.map Post.id) rest = true →
      (∀ i : Nat, i ∈ dead ↔
        ∃ r ∈ processed, r.id = i ∧ (isNuked r = true ∨ HasNukedAncestor P r)) →
      ∀ x, x ∈ removeNukedGo dead rest ↔ x ∈ rest ∧ ¬ HasNukedAncestor P x := by
  intro rest
  induction rest with
  | nil =>
      intro processed dead _ _ _ _ x
      simp [removeNukedGo]
  | cons p rest ih =>
      intro processed dead hproc hrestP hwf hinv x
      have h3 : parentSeen (processed.map Post.id) p = true ∧
          (processed.map Post.id).contains p.id = false ∧
          threadWF (p.id :: processed.map Post.id) rest = true := by
        simp only [threadWF, Bool.and_eq_true, Bool.not_eq_true'] at hwf
        exact ⟨hwf.1.1, hwf.1.2, hwf.2⟩
      obtain ⟨hps, hpid, hwfrest⟩ := h3
      have hpP : p ∈ P := hrestP p (List.mem_cons_self p rest)
      have hanc : HasNukedAncestor P p ↔ parentDead dead p = true := by
        constructor
        · intro h
          have hq : ∃ q ∈ P, p.parentId = some q.id ∧
              (isNuked q = true ∨ HasNukedAncestor P q) := by
            cases h with
            | direct p q hqP hpar hnk => exact ⟨q, hqP, hpar, Or.inl hnk⟩
            | trans p q hqP hpar hanc2 => exact ⟨q, hqP, hpar, Or.inr hanc2⟩
          obtain ⟨q, hqP, hpar, hD⟩ := hq
          have hseen : q.id ∈ processed.map Post.id := by
            unfold parentSeen at hps
            rw [hpar] at hps
            simpa using hps
          obtain ⟨r, hrproc, hrid⟩ := List.mem_map.mp hseen
          have hrq : r = q := hUnique r (hproc r hrproc) q hqP hrid
          subst hrq
          have hdead : r.id ∈ dead := (hinv r.id).mpr ⟨r, hrproc, rfl, hD⟩
          unfold parentDead
          rw [hpar]
          simpa using hdead
        · intro h
          unfold parentDead at h
          split at h
          · rename_i qv hq
            have hqvdead : qv ∈ dead := by simpa using h
            obtain ⟨r, hrproc, hrid, hD⟩ := (hinv qv).mp hqvdead
            have hrP : r ∈ P := hproc r hrproc
            have hpar : p.parentId = some r.id := by rw [hq, hrid]
            rcases hD with hnk | hanc2
            · exact HasNukedAncestor.direct p r hrP hpar hnk
            · exact HasNukedAncestor.trans p r hrP hpar hanc2
          · cases h
      have hprocP2 : ∀ r ∈ (p :: processed), r ∈ P := by
        intro r hr
        rcases List.mem_cons.mp hr with rfl | hr
        · exact hpP
        · exact hproc r hr
      have hrestP2 : ∀ r ∈ rest, r ∈ P :=
        fun r hr => hrestP r (List.mem_cons_of_mem p hr)
      by_cases hpd : parentDead dead p = true
      · have hancp : HasNukedAncestor P p := hanc.mpr hpd
        have hres : removeNukedGo dead (p :: rest) = removeNukedGo (p.id :: dead) rest := by
          simp only [removeNukedGo, if_pos hpd]
        have hinv2 : ∀ i : Nat, i ∈ (p.id :: dead) ↔
            ∃ r ∈ (p :: processed), r.id = i ∧
              (isNuked r = true ∨ HasNukedAncestor P r) := by
          intro i
          constructor
          · intro hi
            rcases List.mem_cons.mp hi with rfl | hi
            · exact ⟨p, List.mem_cons_self p processed, rfl, Or.inr hancp⟩
            · obtain ⟨r, hrproc, hrid, hD⟩ := (hinv i).mp hi
              exact ⟨r, List.mem_cons_of_mem p hrproc, hrid, hD⟩
          · rintro ⟨r, hr, hrid, hD⟩
            rcases List.mem_cons.mp hr with rfl | hr
            · subst hrid
              exact List.mem_cons_self r.id dead
            · exact List.mem_cons_of_mem p.id ((hinv i).mpr ⟨r, hr, hrid, hD⟩)
        have ihx := ih (p :: processed) (p.id :: dead) hprocP2 hrestP2
          (by simpa using hwfrest) hinv2
        rw [hres]
        constructor
        · intro hx
          have hh := (ihx x).mp hx
          exact ⟨List.mem_cons_of_mem p hh.1, hh.2⟩
        · rintro ⟨hx, hnanc⟩
          rcases List.mem_cons.mp hx with rfl | hx
          · exact absurd hancp hnanc
          · exact (ihx x).mpr ⟨hx, hnanc⟩
      · have hpd2 : parentDead dead p = false := by simpa using hpd
        have hnancp : ¬ HasNukedAncestor P p := fun h => hpd (hanc.mp h)
        obtain ⟨dead2, hres, hinv2⟩ :
            ∃ dead2, removeNukedGo dead (p :: rest) = p :: removeNukedGo dead2 rest ∧
              (∀ i : Nat, i ∈ dead2 ↔ ∃ r ∈ (p :: processed), r.id = i ∧
                (isNuked r = true ∨ HasNukedAncestor P r)) := by
          by_cases hnk : isNuked p = true
          · refine ⟨p.id :: dead, ?_, ?_⟩
            · simp only [removeNukedGo, hpd2]
              simp [hnk]
            · intro i
              constructor
              · intro hi
                rcases List.mem_cons.mp hi with rfl | hi
                · exact ⟨p, List.mem_cons_self p processed, rfl, Or.inl hnk⟩
                · obtain ⟨r, hrproc, hrid, hD⟩ := (hinv i).mp hi
                  exact ⟨r, List.mem_cons_of_mem p hrproc, hrid, hD⟩
              · rintro ⟨r, hr, hrid, hD⟩
                rcases List.mem_cons.mp hr with rfl | hr
                · subst hrid
                  exact List.mem_cons_self r.id dead
                · exact List.mem_cons_of_mem p.id ((hinv i).mpr ⟨r, hr, hrid, hD⟩)
          · have hnkf : isNuked p = false := by simpa using hnk
            refine ⟨dead, ?_, ?_⟩
            · simp only [removeNukedGo, hpd2, hnkf]
              simp
            · intro i
              constructor
              · intro hi
                obtain ⟨r, hrproc, hrid, hD⟩ := (hinv i).mp hi
                exact ⟨r, List.mem_cons_of_mem p hrproc, hrid, hD⟩
              · rintro ⟨r, hr, hrid, hD⟩
                rcases List.mem_cons.mp hr with rfl | hr
                · rcases hD with hh | hh
                  · simp [hnkf] at hh
                  · exact absurd hh hnancp
                · exact (hinv i).mpr ⟨r, hr, hrid, hD⟩
        have ihx := ih (p :: processed) dead2 hprocP2 hrestP2
          (by simpa using hwfrest) hinv2
        rw [hres]
        constructor
        · intro hx
          rcases List.mem_cons.mp hx with rfl | hx
          · exact ⟨List.mem_cons_self _ _, hnancp⟩
          · have hh := (ihx x).mp hx
            exact ⟨List.mem_cons_of_mem p hh.1, hh.2⟩
        · rintro ⟨hx, hnanc⟩
          rcases List.mem_cons.mp hx with rfl | hx
          · exact List.mem_cons_self _ _
          · exact List.mem_cons_of_mem p ((ihx x).mpr ⟨hx, hnanc⟩)

/-- C2: pruning a parent-before-child thread keeps a post exactly when no
strict ancestor of it carries the `Nuked` flag — a nuked post itself stays,
every descendant of a nuked post is dropped whatever its own flags, and
sibling branches are untouched; on the thread `A, B (child of A, nuked),
C (child of B), D (child of A)` the result is exactly `[A, B, D]`. -/
theorem removeNukedSubthreads_spec (posts : List Post)
    (hwf : threadWF [] posts = true) :
    (∀ x, x ∈ removeNukedSubthreads posts ↔
      x ∈ posts ∧ ¬ HasNukedAncestor posts x) ∧
    removeNukedSubthreads [postA, postB, postC, postD] = [postA, postB, postD] := by
  constructor
  · have hU : ∀ a ∈ posts, ∀ b ∈ posts, a.id = b.id → a = b :=
      fun a ha b hb hab =>
        List.inj_on_of_nodup_map (threadWF_nodup posts [] hwf) ha hb hab
    intro x
    exact removeNukedGo_mem_iff posts hU posts [] []
      (fun r hr => absurd hr (List.not_mem_nil r))
      (fun r hr => hr)
      (by simpa using hwf)
      (by intro i; simp)
      x
  · rfl

/-- Witness for C2: the four-post example thread is well formed and prunes
to `[A, B, D]`. -/
theorem removeNukedSubthreads_spec_witness :
    removeNukedSubthreads [postA, postB, postC, postD] = [postA, postB, postD] :=
  (removeNukedSubthreads_spec [postA, postB, postC, postD] (by decide)).2

/-- Posts fetched for any id list come from the store. -/
theorem getThreads_subset (store : List Post) (ids : List Nat) :
    ∀ p ∈ getThreads store ids, p ∈ store := by
  intro p hp
  rw [getThreads, List.mem_flatMap] at hp
  obtain ⟨rid, _, hp⟩ := hp
  exact (List.mem_filter.mp hp).1

/-- Looking the requested ids up through an id-respecting partial function
yields posts whose id sequence is an ordered sub-list of the requests. -/
theorem filterMap_map_id_sublist (f : Nat → Option Post)
    (hf : ∀ i pp, f i = some pp → pp.id = i) :
    ∀ ids : List Nat, ((ids.filterMap f).map Post.id).Sublist ids := by
  intro ids
  induction ids with
  | nil => simp
  | cons i rest ih =>
      cases hfi : f i with
      | none =>
          rw [List.filterMap_cons_none hfi]
          exact ih.cons i
      | some pp =>
          rw [List.filterMap_cons_some hfi, List.map_cons, hf i pp hfi]
          exact ih.cons₂ i

/-- Requests mapped to `none` can be dropped from the id list without
changing the lookup result. -/
theorem filterMap_drop_none (f : Nat → Option Post) (j : Nat) (hfj : f j = none) :
    ∀ l : List Nat, l.filterMap f = (l.filter (fun i => i ≠ j)).filterMap f := by
  intro l
  induction l with
  | nil => rfl
  | cons i rest ih =>
      by_cases hij : i = j
      · subst hij
        rw [List.filterMap_cons_none hfj, List.filter_cons_of_neg (by simp)]
        exact ih
      · rw [List.filter_cons_of_pos (by simpa using hij)]
        cases hfi : f i with
        | none =>
            rw [List.filterMap_cons_none hfi, List.filterMap_cons_none hfi]
            exact ih
        | some b =>
            rw [List.filterMap_cons_some hfi, List.filterMap_cons_some hfi, ih]

/-- An id whose thread has no posts in the store contributes nothing to the
fetch, so it can be dropped from the request list. -/
theorem flatMap_filter_drop (store : List Post) (j : Nat)
    (hjt : ∀ p ∈ store, p.threadId ≠ j) :
    ∀ ids : List Nat,
      getThreads store ids = getThreads store (ids.filter (fun i => i ≠ j)) := by
  intro ids
  simp only [getThreads]
  induction ids with
  | nil => rfl
  | cons i rest ih =>
      rw [List.flatMap_cons]
      by_cases hij : i = j
      · subst hij
        rw [List.filter_cons_of_neg (by simp)]
        have hnil : store.filter (fun p => p.threadId == i) = [] :=
          List.filter_eq_nil_iff.mpr (fun p hp => by simpa using hjt p hp)
        rw [hnil, List.nil_append]
        exact ih
      · rw [List.filter_cons_of_pos (by simpa using hij), List.flatMap_cons]
        rw [ih]

/-- C5: the `/v2/getPost` read path returns its posts in the caller's
originally requested id order (the result's id sequence is an ordered
sub-list of the request), and a requested id whose thread is entirely
absent from the store is silently omitted — dropping it from the request
leaves the result unchanged, and no error arises. -/
theorem getPost_requested_order (store : List Post) (ids : List Nat) (j : Nat)
    (hj : ∀ p ∈ store, p.threadId ≠ j ∧ p.id ≠ j) :
    ((getPostRouteCore store ids).map Post.id).Sublist ids ∧
    j ∉ (getPostRouteCore store ids).map Post.id ∧
    getPostRouteCore store ids =
      getPostRouteCore store (ids.filter (fun i => i ≠ j)) := by
  refine ⟨?_, ?_, ?_⟩
  · simp only [getPostRouteCore]
    exact filterMap_map_id_sublist _ (fun i pp h => by simpa using List.find?_some h) ids
  · intro hmem
    simp only [getPostRouteCore] at hmem
    obtain ⟨x, hx, hxid⟩ := List.mem_map.mp hmem
    obtain ⟨i, hi, hfi⟩ := List.mem_filterMap.mp hx
    have hxU := List.mem_of_find?_eq_some hfi
    have hxS : x ∈ store :=
      getThreads_subset store ids x (removeNukedGo_subset _ [] x hxU)
    exact (hj x hxS).2 hxid
  · have hthreads := flatMap_filter_drop store j (fun p hp => (hj p hp).1) ids
    have hfj : (removeNukedSubthreads (getThreads store ids)).find?
        (fun p => p.id == j) = none := by
      rw [List.find?_eq_none]
      intro x hxU
      have hxS : x ∈ store :=
        getThreads_subset store ids x (removeNukedGo_subset _ [] x hxU)
      simpa using (hj x hxS).2
    simp only [getPostRouteCore]
    rw [← hthreads]
    exact filterMap_drop_none _ j hfj ids

/-- Witness for C5: requesting ids `[1, 99]` against the example store —
the absent id 99 never appears in the result. -/
theorem getPost_requested_order_witness :
    (99 : Nat) ∉ (getPostRouteCore [postA, postB, postC, postD] [1, 99]).map Post.id :=
  (getPost_requested_order [postA, postB, postC, postD] [1, 99] 99 (by decide)).2.1

end WebChatty
